import Mathlib

/-!
Shallow embedding of the `knvectis` core (files `_states.py`, `_base.py`,
`_objects.py`, `_engine.py`).

Python objects are modelled by a store mapping object identities (Nat) to
records; mutation is explicit store update.  Exceptions are modelled as an
`Option KError` result component: a raised error carries the store as it was
at the moment of the raise (Python does not roll mutations back).
-/

namespace Knvectis

/-- SHA-1 digests are modelled as the identity injection on the serialized
pre-image: the source (`_objects.py`, `sha1 = lambda x: hashlib.sha1(...)`)
uses the digest only as a deterministic, collision-resistant fingerprint, so
equality/inequality of digests is modelled as equality/inequality of the
serialized strings. -/
def sha1 (s : String) : String := s

/-- Python `repr` of a `str`, as it appears inside `str(list_of_str)`:
the string wrapped in single quotes (codepoint 0x27). -/
def pyQuote (s : String) : String := "\u0027" ++ s ++ "\u0027"

/-- Elements of Python `str(list_of_str)` joined by `", "`. -/
def pyListReprAux : List String → String
  | [] => ""
  | s :: t => pyQuote s ++ (if t.isEmpty then "" else ", " ++ pyListReprAux t)

/-- Python `str` of a list of strings, e.g. `[]` or `[*a*, *b*]` with the
elements single-quoted, exactly as an f-string interpolates a `list[str]`. -/
def pyListRepr (l : List String) : String :=
  "[" ++ pyListReprAux l ++ "]"

/-- Python f-string interpolation of `x if cond else None` for an optional
string: the string itself, or the text `None`. -/
def pyOptRepr : Option String → String
  | none => "None"
  | some s => s

/-- The concrete `KObject` subclasses of `_objects.py`.  None of them
subclasses another, so `isinstance(x, tuple_of_these)` coincides with
membership of `type(x)` in the tuple. -/
inductive Kind where
  | leaf | branch | tree | node | net | layer | matrix
  deriving DecidableEq

/-- `type(self).__name__` for each variant, as used in error messages. -/
def kindName : Kind → String
  | .leaf => "Leaf"
  | .branch => "Branch"
  | .tree => "Tree"
  | .node => "Node"
  | .net => "Net"
  | .layer => "Layer"
  | .matrix => "Matrix"

/-- `_states.PruneFrom`. -/
inductive PruneFrom where
  | FORWARD | BACKWARD
  deriving DecidableEq

/-- `_states.PruneType`. -/
inductive PruneType where
  | DISCARD | DESTROY
  deriving DecidableEq

/-- `_states.NotifyMode`. -/
inductive NotifyMode where
  | RAISE | CALL | SUPPRESS
  deriving DecidableEq

/-- Python exceptions raised by the modelled code, with their messages. -/
inductive KError where
  | typeError (msg : String)
  | valueError (msg : String)
  | attributeError (msg : String)
  deriving DecidableEq

/-- `_base.KRetentionPolicy`.  The mutable `retained` list of previously
evicted victims is part of the policy record.  The optional `callback` is an
external collaborator whose invocation has no effect on the modelled state,
so it is not carried in the record. -/
structure KRetentionPolicy where
  max_size : Int
  prune_from : PruneFrom
  prune_type : PruneType
  notify : NotifyMode := .SUPPRESS
  retained : List Nat := []
  deriving DecidableEq

/-- One Python `KObject`, flattened over the variants of `_objects.py`:
`data` is the `data` payload of Leaf/Branch/Tree/Node, `name` the `name` of
Layer/Matrix, `children` the ordered child list kept in
`metadata["children"]` (object identities), `parent` the parent
back-reference (an object identity), `retention` the attached policy and
`index` the auxiliary id-to-object dictionary owned by `Net`. -/
structure Obj where
  kind : Kind
  id : String
  data : String := ""
  name : String := ""
  parent : Option Nat := none
  children : List Nat := []
  retention : Option KRetentionPolicy := none
  index : List (String × Nat) := []
  deriving DecidableEq

instance : Inhabited Obj := ⟨{ kind := .leaf, id := "" }⟩

/-- The Python heap: object identities (as produced by `id(...)`) to
objects. -/
def Store : Type := Nat → Obj

/-- Mutation of the object at identity `a`. -/
def setObj (σ : Store) (a : Nat) (o : Obj) : Store :=
  fun n => if n = a then o else σ n

/-- `allowed_children` of each variant, as a list of concrete types.
Every variant overrides the base class's empty tuple with a nonempty one;
`Leaf` declares itself as its own allowed child. -/
def allowed : Kind → List Kind
  | .leaf => [.leaf]
  | .branch => [.leaf]
  | .tree => [.branch]
  | .node => [.tree]
  | .net => [.node]
  | .layer => [.net]
  | .matrix => [.layer]

/-- The `id` strings of an object's children, `[c.id for c in self]`. -/
def childIds (σ : Store) (o : Obj) : List String :=
  o.children.map fun c => (σ c).id

/-- The `id` string of the parent, if any. -/
def parentId (σ : Store) (o : Obj) : Option String :=
  o.parent.map fun p => (σ p).id

/-- The `id` strings of `Matrix.layers`: the children that are `Layer`
instances (`Matrix.hash` filters before hashing). -/
def layerIds (σ : Store) (o : Obj) : List String :=
  (o.children.filter fun c => (σ c).kind = .layer).map fun c => (σ c).id

/-- The structural hash (`hash` property) of each variant, serialized as in
the source:
Leaf `sha1(f"{data}|{parent_id}")`,
Branch/Tree/Node `sha1(f"{data}|{children_ids}|{parent_id}")`,
Net `sha1(f"{ids}")`,
Layer `sha1(f"{name}|{net_ids}")`,
Matrix `sha1(f"{name}|{layer_ids}")`. -/
def structHash (σ : Store) (o : Obj) : String :=
  match o.kind with
  | .leaf => sha1 (o.data ++ "|" ++ pyOptRepr (parentId σ o))
  | .branch => sha1 (o.data ++ "|" ++ pyListRepr (childIds σ o) ++ "|" ++ pyOptRepr (parentId σ o))
  | .tree => sha1 (o.data ++ "|" ++ pyListRepr (childIds σ o) ++ "|" ++ pyOptRepr (parentId σ o))
  | .node => sha1 (o.data ++ "|" ++ pyListRepr (childIds σ o) ++ "|" ++ pyOptRepr (parentId σ o))
  | .net => sha1 (pyListRepr (childIds σ o))
  | .layer => sha1 (o.name ++ "|" ++ pyListRepr (childIds σ o))
  | .matrix => sha1 (o.name ++ "|" ++ pyListRepr (layerIds σ o))

/-- The semantic hash (`shash` property) of each variant:
Leaf `sha1(f"{data}")`, Branch `sha1(f"{data}|{id}")`, Tree/Node
`sha1(f"{data}")`, Net `self.hash` (the structural hash!), Layer/Matrix
`sha1(name)`. -/
def semHash (σ : Store) (o : Obj) : String :=
  match o.kind with
  | .leaf => sha1 o.data
  | .branch => sha1 (o.data ++ "|" ++ o.id)
  | .tree => sha1 o.data
  | .node => sha1 o.data
  | .net => structHash σ o
  | .layer => sha1 o.name
  | .matrix => sha1 o.name

/-- The membership test of `other not in children` in `KObject.__add__`:
Python `in` compares with `==`, and `KObject.__eq__` compares structural
hashes. -/
def hashMem (σ : Store) (children : List Nat) (b : Nat) : Bool :=
  children.any fun c => structHash σ (σ c) == structHash σ (σ b)

/-- `KObject.__add__` (`_base.py` lines 51-65): raise `TypeError` when the
allowed-children tuple is nonempty and the child's type is not in it;
otherwise, unless a value-equal child is already present, set the child's
parent back-reference and append it to `metadata["children"]`.  The raise
happens before any mutation, so the error case returns the store
unchanged.  (The `isinstance(other, KObject)` guard is vacuous here: every
modelled value is a `KObject`.) -/
def kadd (σ : Store) (a b : Nat) : Store × Option KError :=
  if allowed (σ a).kind ≠ [] ∧ (σ b).kind ∉ allowed (σ a).kind then
    (σ, some (.typeError (kindName (σ a).kind ++ " cannot have child of type "
      ++ kindName (σ b).kind)))
  else if hashMem σ (σ a).children b then
    (σ, none)
  else
    let σ1 := setObj σ b { σ b with parent := some a }
    (setObj σ1 a { σ1 a with children := (σ1 a).children ++ [b] }, none)

/-- `list.remove(x)` of `KObject.__sub__`: drop the first element `==`-equal
(i.e. structural-hash-equal) to `b`, or `none` when no element matches
(Python raises `ValueError`). -/
def removeFirstEq (σ : Store) (l : List Nat) (b : Nat) : Option (List Nat) :=
  match l with
  | [] => none
  | c :: t =>
      if structHash σ (σ c) = structHash σ (σ b) then some t
      else (removeFirstEq σ t b).map (c :: ·)

/-- `KObject.__sub__` (`_base.py` lines 68-72): when `other.parent is self`,
clear the back-reference and then `children.remove(other)`; otherwise a
tolerant no-op.  The parent is cleared before the removal, so when the
removal fails the cleared parent persists. -/
def ksub (σ : Store) (a b : Nat) : Store × Option KError :=
  if (σ b).parent = some a then
    let σ1 := setObj σ b { σ b with parent := none }
    match removeFirstEq σ1 (σ1 a).children b with
    | some l => (setObj σ1 a { σ1 a with children := l }, none)
    | none => (σ1, some (.valueError "list.remove(x): x not in list"))
  else (σ, none)

/-- The victims/survivors split of `KRetentionPolicy.apply`:
`PruneFrom.FORWARD` takes `children[-overflow:]` as victims and
`children[:-overflow]` as survivors; `BACKWARD` takes `children[:overflow]`
and `children[overflow:]`.  `k` is the (positive) overflow. -/
def evictSplit (side : PruneFrom) (k : Nat) (children : List Nat) :
    List Nat × List Nat :=
  match side with
  | .FORWARD => (children.drop (children.length - k), children.take (children.length - k))
  | .BACKWARD => (children.take k, children.drop k)

/-- The message of the `ValueError` raised by `KRetentionPolicy._notify` in
`RAISE` mode. -/
def retentionMsg (victimCount : Nat) : String :=
  "Retention policy: removed " ++ toString victimCount ++ " objects"

/-- `KRetentionPolicy.apply(container)` (`_base.py` lines 157-184), invoked
as `self.retention.apply(self)`: compute the overflow; no-op when it is
`<= 0`; otherwise split off the victims, extend the policy's `retained`
list when `prune_type == DISCARD`, replace `metadata["children"]` with the
survivors, and only then `_notify`: `RAISE` raises a `ValueError` carrying
the victim count — after the container has already been mutated — `CALL`
invokes the external callback, `SUPPRESS` does nothing. -/
def applyPolicy (σ : Store) (a : Nat) : Store × Option KError :=
  match (σ a).retention with
  | none => (σ, none)
  | some p =>
      let children := (σ a).children
      let overflow : Int := (children.length : Int) - p.max_size
      if overflow ≤ 0 then (σ, none)
      else
        let vs := evictSplit p.prune_from overflow.toNat children
        let p' := match p.prune_type with
          | .DISCARD => { p with retained := p.retained ++ vs.1 }
          | .DESTROY => p
        let σ' := setObj σ a { σ a with children := vs.2, retention := some p' }
        match p.notify with
        | .RAISE => (σ', some (.valueError (retentionMsg vs.1.length)))
        | .CALL => (σ', none)
        | .SUPPRESS => (σ', none)

/-- The overridden `__add__` shared verbatim by `Branch`, `Tree`, `Node` and
`Layer`: `super().__add__(other)` followed — on success — by
`self.retention.apply(self)` when a policy is attached. -/
def addWithPolicy (σ : Store) (a b : Nat) : Store × Option KError :=
  match kadd σ a b with
  | (σ1, some e) => (σ1, some e)
  | (σ1, none) =>
      match (σ1 a).retention with
      | none => (σ1, none)
      | some _ => applyPolicy σ1 a

/-- `Matrix.__add__` (`_objects.py` lines 390-394): `super().__add__(other)`
then `self.retention.apply(self.children)` — the argument is the children
*list*, not the container, and `apply` immediately evaluates
`container.metadata`, so Python raises `AttributeError` before any policy
logic runs. -/
def matrixAdd (σ : Store) (a b : Nat) : Store × Option KError :=
  match kadd σ a b with
  | (σ1, some e) => (σ1, some e)
  | (σ1, none) =>
      match (σ1 a).retention with
      | none => (σ1, none)
      | some _ =>
          (σ1, some (.attributeError "\u0027list\u0027 object has no attribute \u0027metadata\u0027"))

/-- `Net.register`: `self.index[obj.id] = obj` (dictionary overwrite). -/
def register (σ : Store) (a b : Nat) : Store :=
  setObj σ a { σ a with
    index := ((σ a).index.filter fun kv => kv.1 ≠ (σ b).id) ++ [((σ b).id, b)] }

/-- `Net.add_node` (`_objects.py` lines 272-279): allocate a fresh `Node` at
identity `fresh` (with a fresh id string), `self + node` (the plain
`KObject.__add__` — `Net` does not override it), `self.register(node)`, and
then, when a policy is attached, `self.retention.apply(children)` with the
children *list* as argument — an `AttributeError`, as in `Matrix.__add__`. -/
def addNode (σ : Store) (a fresh : Nat) (freshId data : String) :
    Store × Option KError :=
  let σ0 := setObj σ fresh { kind := .node, id := freshId, data := data }
  match kadd σ0 a fresh with
  | (σ1, some e) => (σ1, some e)
  | (σ1, none) =>
      let σ2 := register σ1 a fresh
      match (σ2 a).retention with
      | none => (σ2, none)
      | some _ =>
          (σ2, some (.attributeError "\u0027list\u0027 object has no attribute \u0027metadata\u0027"))

/-- Modelled from the spec: `KObject.partition` is invoked by
`KObject.__truediv__` (`_base.py` line 80) but is not defined anywhere under
`src/`; per spec §4.2 it "splits a node's own children into `k` contiguous,
roughly equal groups".  The group sizes: with `n` children and `k` groups,
the first `n % k` groups get `n / k + 1` children, the rest `n / k`. -/
def groupSizes (n k : Nat) : List Nat :=
  (List.range k).map fun i => if i < n % k then n / k + 1 else n / k

/-- Cut a list into consecutive chunks of the given sizes. -/
def chunksOf : List Nat → List Nat → List (List Nat)
  | _, [] => []
  | l, s :: ss => l.take s :: chunksOf (l.drop s) ss

/-- Modelled from the spec: the partition of a node's own children into `k`
contiguous, roughly equal groups (see `groupSizes`). -/
def partition (children : List Nat) (k : Nat) : List (List Nat) :=
  chunksOf children (groupSizes children.length k)

/-- `KObject.__truediv__` (`_base.py` lines 77-80): raise
`ValueError("parts must be > 0")` when `parts <= 0`, otherwise return
`self.partition(parts)` (the spec-modelled `partition`). -/
def truediv (σ : Store) (a : Nat) (parts : Int) : Except KError (List (List Nat)) :=
  if parts ≤ 0 then .error (.valueError "parts must be > 0")
  else .ok (partition (σ a).children parts.toNat)

/-- `KTraverser` (`_engine.py` lines 62-72): up to three relation
resolvers.  Nodes are modelled by an arbitrary type `α` standing for Python
object *identities* — the traverser's visited set stores `id(node)`, so the
identity is all it ever inspects. -/
structure KTraverser (α : Type) where
  children_resolver : Option (α → List α) := none
  parent_resolver : Option (α → Option α) := none
  transversal_resolver : Option (α → List α) := none

/-- All neighbors enqueued for a visited node, in the source's order:
the children resolver's output first (`or []` on a None result is absorbed
into the `List` codomain), then the parent when truthy, then the
transversal resolver's output. -/
def neighbors {α : Type} (t : KTraverser α) (x : α) : List α :=
  (match t.children_resolver with | some f => f x | none => []) ++
  (match t.parent_resolver with | some f => (f x).toList | none => []) ++
  (match t.transversal_resolver with | some f => f x | none => [])

/-- The loop of `KTraverser.traverse` (`_engine.py` lines 74-102): a FIFO
queue of `(node, path)` pairs and a visited set of node identities; pop,
skip if already visited, otherwise mark visited, yield `(node, path)` and
enqueue every resolver-produced neighbor with `path + [node]`.  Total by
well-founded recursion: each step either shrinks the queue (visited node) or
grows the visited set (which is bounded by the finite node type). -/
def traverseLoop {α : Type} [DecidableEq α] [Fintype α] (t : KTraverser α) :
    List (α × List α) → Finset α → List (α × List α)
  | [], _ => []
  | (node, path) :: queue, visited =>
      if h : node ∈ visited then
        traverseLoop t queue visited
      else
        (node, path) ::
          traverseLoop t (queue ++ (neighbors t node).map fun b => (b, path ++ [node]))
            (insert node visited)
  termination_by q v => (Fintype.card α - v.card, q.length)
  decreasing_by
  · exact Prod.Lex.right _ (Nat.lt_succ_self _)
  · apply Prod.Lex.left
    have hcard : (insert node visited).card = visited.card + 1 :=
      Finset.card_insert_of_not_mem h
    have hle : (insert node visited).card ≤ Fintype.card α := Finset.card_le_univ _
    omega

/-- `KTraverser.traverse(start)`: run the loop from `[(start, [])]` with an
empty visited set, returning the (finite) yielded sequence. -/
def traverse {α : Type} [DecidableEq α] [Fintype α] (t : KTraverser α) (start : α) :
    List (α × List α) :=
  traverseLoop t [(start, [])] ∅

/-- One resolver step: `y` is produced for `x` by some configured
resolver. -/
def step {α : Type} (t : KTraverser α) (x y : α) : Prop :=
  y ∈ neighbors t x

/-- Reachability under the configured resolvers. -/
def reachable {α : Type} (t : KTraverser α) (s x : α) : Prop :=
  Relation.ReflTransGen (step t) s x

/-- The spec's 2-node cycle A -> B, B -> A, over node identities `Fin 2`,
expressed through the children resolver. -/
def cycle2 : KTraverser (Fin 2) :=
  { children_resolver := some fun a => [if a = 0 then 1 else 0] }

/-! ### Concrete stores used by witnesses and counterexamples -/

/-- Build a store from a list of objects, the object at identity `n` being
the `n`-th list entry. -/
def mkStore (l : List Obj) : Store := fun n => l.getD n default

/-- A `Branch` and a `Tree`: the tree is not an allowed child of the
branch. -/
def storeC4 : Store := mkStore [{ kind := .branch, id := "B" }, { kind := .tree, id := "T" }]

/-- Two fresh leaves. -/
def storeC10 : Store := mkStore
  [{ kind := .leaf, id := "L1", data := "x" }, { kind := .leaf, id := "L2", data := "y" }]

/-- A branch with five children, for partitioning. -/
def storeC3 : Store := mkStore [{ kind := .branch, id := "B", children := [1, 2, 3, 4, 5] }]

/-- A branch holding four leaves under an abort-mode retention policy with
`max_size = 3`, plus a fresh fifth leaf. -/
def storeC1 : Store := mkStore
  [{ kind := .branch, id := "B", data := "bd", children := [1, 2, 3, 4],
     retention := some ⟨3, .FORWARD, .DISCARD, .RAISE, []⟩ },
   { kind := .leaf, id := "L1", data := "a", parent := some 0 },
   { kind := .leaf, id := "L2", data := "b", parent := some 0 },
   { kind := .leaf, id := "L3", data := "c", parent := some 0 },
   { kind := .leaf, id := "L4", data := "d", parent := some 0 },
   { kind := .leaf, id := "L5", data := "e" }]

/-- A matrix with a retention policy (`max_size = 0`, so any applied policy
would evict) and a fresh layer. -/
def storeC2m : Store := mkStore
  [{ kind := .matrix, id := "M", name := "mx",
     retention := some ⟨0, .FORWARD, .DISCARD, .SUPPRESS, []⟩ },
   { kind := .layer, id := "Y", name := "ly" }]

/-- A net with a retention policy (`max_size = 0`) and a fresh node. -/
def storeC2n : Store := mkStore
  [{ kind := .net, id := "N",
     retention := some ⟨0, .FORWARD, .DISCARD, .SUPPRESS, []⟩ },
   { kind := .node, id := "ND", data := "nd" }]

/-- An empty branch with a `max_size = 1` silent retention policy and two
fresh leaves. -/
def storeC5 : Store := mkStore
  [{ kind := .branch, id := "B",
     retention := some ⟨1, .FORWARD, .DISCARD, .SUPPRESS, []⟩ },
   { kind := .leaf, id := "L1", data := "a" },
   { kind := .leaf, id := "L2", data := "b" }]

/-- A branch over capacity (`max_size = 1`, two attached leaves). -/
def storeC5w : Store := mkStore
  [{ kind := .branch, id := "B", children := [1, 2],
     retention := some ⟨1, .FORWARD, .DISCARD, .SUPPRESS, []⟩ },
   { kind := .leaf, id := "L1", data := "a", parent := some 0 },
   { kind := .leaf, id := "L2", data := "b", parent := some 0 }]

/-- An empty net and a fresh node. -/
def storeC6 : Store := mkStore
  [{ kind := .net, id := "N" }, { kind := .node, id := "ND", data := "nd" }]

/-- An empty branch and a fresh leaf. -/
def storeC6b : Store := mkStore
  [{ kind := .branch, id := "B", data := "bd" }, { kind := .leaf, id := "L", data := "x" }]

/-- A branch holding one attached leaf. -/
def storeC6r : Store := mkStore
  [{ kind := .branch, id := "B", data := "bd", children := [1] },
   { kind := .leaf, id := "L", data := "x", parent := some 0 }]

/-- A matrix and a fresh layer. -/
def storeC7 : Store := mkStore
  [{ kind := .matrix, id := "M", name := "mx" }, { kind := .layer, id := "Y", name := "ly" }]

/-- A store holding a single prospective parent with id `P`. -/
def storeC7w : Store := mkStore [{ kind := .matrix, id := "P", name := "mx" }]

/-- A detached leaf, to be reattached under identity `0` of `storeC7w`. -/
def leafC7w : Obj := { kind := .leaf, id := "L", data := "d" }

/-- A net with five children and a `FORWARD` (evict-from-front selector)
silent policy with `max_size = 3`. -/
def storeC8f : Store := mkStore
  [{ kind := .net, id := "N", children := [1, 2, 3, 4, 5],
     retention := some ⟨3, .FORWARD, .DISCARD, .SUPPRESS, []⟩ }]

/-- As `storeC8f` with the `BACKWARD` selector. -/
def storeC8b : Store := mkStore
  [{ kind := .net, id := "N", children := [1, 2, 3, 4, 5],
     retention := some ⟨3, .BACKWARD, .DISCARD, .SUPPRESS, []⟩ }]

/-- A compliant container: two children under `max_size = 3`. -/
def storeC8c : Store := mkStore
  [{ kind := .net, id := "N", children := [1, 2],
     retention := some ⟨3, .FORWARD, .DISCARD, .SUPPRESS, []⟩ }]

/-! ### Helper lemmas about the Python serializations -/

@[simp] theorem setObj_same (σ : Store) (a : Nat) (o : Obj) : setObj σ a o a = o := by
  simp [setObj]

@[simp] theorem setObj_other (σ : Store) (a : Nat) (o : Obj) (b : Nat) (h : b ≠ a) :
    setObj σ a o b = σ b := by
  simp [setObj, h]

theorem ne_of_length_ne {s t : String} (h : s.length ≠ t.length) : s ≠ t :=
  fun he => h (congrArg String.length he)

theorem pyQuote_length (s : String) : (pyQuote s).length = s.length + 2 := by
  have h1 : ("\u0027" : String).length = 1 := rfl
  simp [pyQuote, String.length_append, h1]
  omega

theorem comma_sep_length : (", " : String).length = 2 := rfl

theorem pyListReprAux_insert_lt (l1 l2 : List String) (x : String) :
    (pyListReprAux (l1 ++ l2)).length < (pyListReprAux (l1 ++ x :: l2)).length := by
  induction l1 with
  | nil =>
      cases l2 with
      | nil =>
          simp [pyListReprAux, pyQuote_length, String.length_append]
      | cons a t =>
          simp [pyListReprAux, pyQuote_length, String.length_append,
            comma_sep_length] <;> omega
  | cons s t ih =>
      by_cases h : t ++ l2 = []
      · obtain ⟨h1, h2⟩ := List.append_eq_nil.mp h
        subst h1; subst h2
        simp [pyListReprAux, pyQuote_length, String.length_append,
          comma_sep_length]
      · have hne : (t ++ l2).isEmpty = false := by
          simpa [List.isEmpty_iff] using h
        have hne2 : (t ++ x :: l2).isEmpty = false := by
          simp [List.isEmpty_iff]
        simp only [List.cons_append, pyListReprAux, List.append_eq, hne, hne2,
          Bool.false_eq_true, if_false, String.length_append]
        have := ih
        omega

theorem pyListRepr_insert_lt (l1 l2 : List String) (x : String) :
    (pyListRepr (l1 ++ l2)).length < (pyListRepr (l1 ++ x :: l2)).length := by
  simp only [pyListRepr, String.length_append]
  have := pyListReprAux_insert_lt l1 l2 x
  omega

theorem pyListRepr_insert_ne (l1 l2 : List String) (x : String) :
    pyListRepr (l1 ++ l2) ≠ pyListRepr (l1 ++ x :: l2) :=
  ne_of_length_ne (Nat.ne_of_lt (pyListRepr_insert_lt l1 l2 x))

theorem pyListRepr_append_ne (l : List String) (x : String) :
    pyListRepr l ≠ pyListRepr (l ++ [x]) := by
  have := pyListRepr_insert_ne l [] x
  simpa using this

theorem string_append_left_cancel {pre r1 r2 : String} (h : pre ++ r1 = pre ++ r2) :
    r1 = r2 := by
  have := congrArg String.data h
  simp [String.data_append] at this
  exact String.ext this

theorem string_append_left_ne {pre r1 r2 : String} (h : r1 ≠ r2) :
    pre ++ r1 ≠ pre ++ r2 :=
  fun he => h (string_append_left_cancel he)

/-! ### Helper lemmas about the operations -/

theorem kadd_typeError (σ : Store) (a b : Nat)
    (hne : allowed (σ a).kind ≠ [])
    (hnotin : (σ b).kind ∉ allowed (σ a).kind) :
    kadd σ a b = (σ, some (.typeError (kindName (σ a).kind
      ++ " cannot have child of type " ++ kindName (σ b).kind))) := by
  simp [kadd, hne, hnotin]

theorem kadd_success (σ : Store) (a b : Nat) (hab : a ≠ b)
    (hmem : (σ b).kind ∈ allowed (σ a).kind)
    (hdup : hashMem σ (σ a).children b = false) :
    (kadd σ a b).2 = none ∧
    (kadd σ a b).1 a = { σ a with children := (σ a).children ++ [b] } ∧
    (kadd σ a b).1 b = { σ b with parent := some a } ∧
    ∀ c, c ≠ a → c ≠ b → (kadd σ a b).1 c = σ c := by
  have hcond : ¬(allowed (σ a).kind ≠ [] ∧ (σ b).kind ∉ allowed (σ a).kind) := by
    intro h
    exact h.2 hmem
  refine ⟨?_, ?_, ?_, ?_⟩
  · simp [kadd, hcond, hdup]
  · simp [kadd, hcond, hdup, setObj, hab]
  · simp [kadd, hcond, hdup, setObj, hab, Ne.symm hab]
  · intro c hca hcb
    simp [kadd, hcond, hdup, setObj, hca, hcb]

theorem removeFirstEq_decomp (σ : Store) (b : Nat) :
    ∀ (l l' : List Nat), removeFirstEq σ l b = some l' →
      ∃ l1 e l2, l = l1 ++ e :: l2 ∧ l' = l1 ++ l2 := by
  intro l
  induction l with
  | nil => intro l' h; simp [removeFirstEq] at h
  | cons c t ih =>
      intro l' h
      by_cases hc : structHash σ (σ c) = structHash σ (σ b)
      · simp [removeFirstEq, hc] at h
        exact ⟨[], c, t, by simp, by simp [h]⟩
      · simp only [removeFirstEq, if_neg hc, Option.map_eq_some'] at h
        obtain ⟨u, hu, hl'⟩ := h
        obtain ⟨l1, e, l2, h1, h2⟩ := ih u hu
        exact ⟨c :: l1, e, l2, by simp [h1], by simp [← hl', h2]⟩

theorem applyPolicy_noop (σ : Store) (a : Nat) (p : KRetentionPolicy)
    (hp : (σ a).retention = some p)
    (hlen : ((σ a).children.length : Int) ≤ p.max_size) :
    applyPolicy σ a = (σ, none) := by
  simp only [applyPolicy, hp]
  rw [if_pos (by omega)]

theorem applyPolicy_overflow (σ : Store) (a : Nat) (p : KRetentionPolicy)
    (hp : (σ a).retention = some p)
    (hov : p.max_size < ((σ a).children.length : Int)) :
    applyPolicy σ a =
      (setObj σ a { σ a with
          children := (evictSplit p.prune_from
            (((σ a).children.length : Int) - p.max_size).toNat (σ a).children).2,
          retention := some (match p.prune_type with
            | .DISCARD => { p with retained := p.retained ++
                (evictSplit p.prune_from
                  (((σ a).children.length : Int) - p.max_size).toNat (σ a).children).1 }
            | .DESTROY => p) },
       match p.notify with
       | .RAISE => some (.valueError (retentionMsg (evictSplit p.prune_from
           (((σ a).children.length : Int) - p.max_size).toNat (σ a).children).1.length))
       | .CALL => none
       | .SUPPRESS => none) := by
  simp only [applyPolicy, hp]
  rw [if_neg (by omega)]
  cases p.notify <;> rfl

theorem pyListRepr_append_len_ne (l : List String) (x : String) :
    (pyListRepr (l ++ [x])).length ≠ (pyListRepr l).length := by
  have := pyListRepr_insert_lt l [] x
  simp only [List.append_nil] at this
  omega

theorem pyListRepr_remove_len_ne (l1 l2 : List String) (x : String) :
    (pyListRepr (l1 ++ l2)).length ≠ (pyListRepr (l1 ++ x :: l2)).length :=
  Nat.ne_of_lt (pyListRepr_insert_lt l1 l2 x)

/-- Core inequality: two structural hashes of a non-`Leaf` container differ
whenever the serialized children-id lists have different lengths while
content, name and serialized parent id agree. -/
theorem structHash_ne_children (σ τ : Store) (o o' : Obj)
    (hkind : o'.kind = o.kind) (hdata : o'.data = o.data) (hname : o'.name = o.name)
    (hpar : pyOptRepr (parentId τ o') = pyOptRepr (parentId σ o))
    (hmat : o.kind = .matrix →
      (pyListRepr (layerIds τ o')).length ≠ (pyListRepr (layerIds σ o)).length)
    (hch : o.kind ≠ .matrix →
      (pyListRepr (childIds τ o')).length ≠ (pyListRepr (childIds σ o)).length)
    (hleaf : o.kind ≠ .leaf) :
    structHash τ o' ≠ structHash σ o := by
  have hplen : (pyOptRepr (parentId τ o')).length = (pyOptRepr (parentId σ o)).length :=
    congrArg String.length hpar
  cases hk : o.kind
  case leaf => exact absurd hk hleaf
  case branch =>
      have h := hch (by rw [hk]; intro hx; cases hx)
      simp only [structHash, hkind, hk, sha1]
      apply ne_of_length_ne
      simp only [String.length_append, hdata, hplen]
      omega
  case tree =>
      have h := hch (by rw [hk]; intro hx; cases hx)
      simp only [structHash, hkind, hk, sha1]
      apply ne_of_length_ne
      simp only [String.length_append, hdata, hplen]
      omega
  case node =>
      have h := hch (by rw [hk]; intro hx; cases hx)
      simp only [structHash, hkind, hk, sha1]
      apply ne_of_length_ne
      simp only [String.length_append, hdata, hplen]
      omega
  case net =>
      have h := hch (by rw [hk]; intro hx; cases hx)
      simp only [structHash, hkind, hk, sha1]
      exact ne_of_length_ne h
  case layer =>
      have h := hch (by rw [hk]; intro hx; cases hx)
      simp only [structHash, hkind, hk, sha1]
      apply ne_of_length_ne
      simp only [String.length_append, hname]
      omega
  case matrix =>
      have h := hmat hk
      simp only [structHash, hkind, hk, sha1]
      apply ne_of_length_ne
      simp only [String.length_append, hname]
      omega

/-- The semantic hash depends only on `kind`, `data`, `name` and `id` for
every variant other than `Net`. -/
theorem semHash_eq_fields (σ τ : Store) (o o' : Obj)
    (hkind : o'.kind = o.kind) (hdata : o'.data = o.data) (hname : o'.name = o.name)
    (hid : o'.id = o.id) (hnet : o.kind ≠ .net) :
    semHash τ o' = semHash σ o := by
  cases hk : o.kind
  case net => exact absurd hk hnet
  all_goals simp only [semHash, hkind, hk, sha1, hdata, hname, hid]

/-- Field bookkeeping for a successful, actually-appending `__add__`: only
the container's children and the child's parent change; every `id`, `kind`,
`data` and `name` in the store is untouched. -/
theorem kadd_fields (σ : Store) (a b : Nat) (hab : a ≠ b)
    (hmem : (σ b).kind ∈ allowed (σ a).kind)
    (hdup : hashMem σ (σ a).children b = false) :
    ((kadd σ a b).1 a).children = (σ a).children ++ [b] ∧
    ((kadd σ a b).1 a).parent = (σ a).parent ∧
    (∀ c, ((kadd σ a b).1 c).id = (σ c).id) ∧
    (∀ c, ((kadd σ a b).1 c).kind = (σ c).kind) ∧
    (∀ c, ((kadd σ a b).1 c).data = (σ c).data) ∧
    (∀ c, ((kadd σ a b).1 c).name = (σ c).name) := by
  obtain ⟨-, ha, hb, hrest⟩ := kadd_success σ a b hab hmem hdup
  have key : ∀ c, ((kadd σ a b).1 c).id = (σ c).id ∧
      ((kadd σ a b).1 c).kind = (σ c).kind ∧
      ((kadd σ a b).1 c).data = (σ c).data ∧
      ((kadd σ a b).1 c).name = (σ c).name := by
    intro c
    by_cases hca : c = a
    · subst hca; rw [ha]; exact ⟨rfl, rfl, rfl, rfl⟩
    · by_cases hcb : c = b
      · subst hcb; rw [hb]; exact ⟨rfl, rfl, rfl, rfl⟩
      · rw [hrest c hca hcb]; exact ⟨rfl, rfl, rfl, rfl⟩
  refine ⟨by rw [ha], by rw [ha], fun c => (key c).1, fun c => (key c).2.1,
    fun c => (key c).2.2.1, fun c => (key c).2.2.2⟩

theorem kadd_childIds (σ : Store) (a b : Nat) (hab : a ≠ b)
    (hmem : (σ b).kind ∈ allowed (σ a).kind)
    (hdup : hashMem σ (σ a).children b = false) :
    childIds (kadd σ a b).1 ((kadd σ a b).1 a) = childIds σ (σ a) ++ [(σ b).id] := by
  obtain ⟨hch, -, hid, -, -, -⟩ := kadd_fields σ a b hab hmem hdup
  simp only [childIds, hch, List.map_append, List.map_cons, List.map_nil]
  congr 1
  · exact List.map_congr_left fun c _ => hid c
  · simp [hid b]

theorem kadd_parentId (σ : Store) (a b : Nat) (hab : a ≠ b)
    (hmem : (σ b).kind ∈ allowed (σ a).kind)
    (hdup : hashMem σ (σ a).children b = false) :
    parentId (kadd σ a b).1 ((kadd σ a b).1 a) = parentId σ (σ a) := by
  obtain ⟨-, hpar, hid, -, -, -⟩ := kadd_fields σ a b hab hmem hdup
  simp only [parentId, hpar]
  cases (σ a).parent with
  | none => rfl
  | some p => simp [hid p]

theorem kadd_layerIds (σ : Store) (a b : Nat) (hab : a ≠ b)
    (hmem : (σ b).kind ∈ allowed (σ a).kind)
    (hdup : hashMem σ (σ a).children b = false)
    (hlay : (σ b).kind = .layer) :
    layerIds (kadd σ a b).1 ((kadd σ a b).1 a) = layerIds σ (σ a) ++ [(σ b).id] := by
  obtain ⟨hch, -, hid, hkind, -, -⟩ := kadd_fields σ a b hab hmem hdup
  simp only [layerIds, hch, List.filter_append]
  have hpred : ∀ c, (decide (((kadd σ a b).1 c).kind = Kind.layer))
      = (decide ((σ c).kind = Kind.layer)) := by
    intro c; rw [hkind c]
  rw [List.filter_congr fun c _ => hpred c]
  rw [show (List.filter (fun c => decide (((kadd σ a b).1 c).kind = Kind.layer)) [b]) = [b] by
    simp [List.filter, hkind b, hlay]]
  simp only [List.map_append, List.map_cons, List.map_nil]
  congr 1
  · apply List.map_congr_left
    intro c _
    exact hid c
  · simp [hid b]

theorem allowed_ne_nil (k : Kind) : allowed k ≠ [] := by
  cases k <;> simp [allowed]

/-! ### Claims -/

/-- Claim C4: for every container `C` and every child whose concrete type is
not in `C`'s allowed-child set, composing that child into `C` fails with a
type-contract error (`TypeError` naming both types) and leaves `C`'s
children sequence — indeed the whole store — unchanged. -/
theorem c4_type_contract (σ : Store) (a b : Nat)
    (h : (σ b).kind ∉ allowed (σ a).kind) :
    kadd σ a b = (σ, some (.typeError (kindName (σ a).kind
      ++ " cannot have child of type " ++ kindName (σ b).kind))) ∧
    ((kadd σ a b).1 a).children = (σ a).children := by
  have he := kadd_typeError σ a b (allowed_ne_nil _) h
  exact ⟨he, by rw [he]⟩

/-- Witness for C4: a `Tree` composed into a `Branch` is rejected with a
`TypeError` and the branch's children stay `[]`. -/
theorem c4_type_contract_witness :
    kadd storeC4 0 1 = (storeC4, some (.typeError (kindName (storeC4 0).kind
      ++ " cannot have child of type " ++ kindName (storeC4 1).kind))) ∧
    ((kadd storeC4 0 1).1 0).children = (storeC4 0).children :=
  c4_type_contract storeC4 0 1 (by decide)

/-- Claim C10 refuted: composing a fresh `Leaf` into a `Leaf` with the
inherited `+` operator succeeds and appends it, so a leaf's children
sequence does not stay empty in every reachable state. -/
theorem c10_leaf_add_counterexample :
    (kadd storeC10 0 1).2 = none ∧
    ((kadd storeC10 0 1).1 0).children = [1] ∧
    ([1] : List Nat) ≠ [] := by
  refine ⟨by decide, by decide, by decide⟩

/-- Claim C10 (amended): `Leaf` defines no child-adding method of its own,
but it inherits the generic composition operator and declares `Leaf` as an
allowed child, so composing a fresh, non-duplicate `Leaf` into a `Leaf`
succeeds, appends it to the children sequence, and sets its parent — the
self-referential allowed-child declaration is effective, not inert. -/
theorem c10_leaf_amended (σ : Store) (a b : Nat) (hab : a ≠ b)
    (ha : (σ a).kind = .leaf) (hb : (σ b).kind = .leaf)
    (hdup : hashMem σ (σ a).children b = false) :
    (kadd σ a b).2 = none ∧
    ((kadd σ a b).1 a).children = (σ a).children ++ [b] ∧
    ((kadd σ a b).1 b).parent = some a := by
  have hmem : (σ b).kind ∈ allowed (σ a).kind := by
    rw [ha, hb]; simp [allowed]
  obtain ⟨h1, h2, h3, -⟩ := kadd_success σ a b hab hmem hdup
  exact ⟨h1, by rw [h2], by rw [h3]⟩

/-- Witness for the amended C10 at the two concrete leaves. -/
theorem c10_leaf_amended_witness :
    (kadd storeC10 0 1).2 = none ∧
    ((kadd storeC10 0 1).1 0).children = (storeC10 0).children ++ [1] ∧
    ((kadd storeC10 0 1).1 1).parent = some 0 :=
  c10_leaf_amended storeC10 0 1 (by decide) (by decide) (by decide) (by decide)

theorem chunksOf_length (ss : List Nat) : ∀ l, (chunksOf l ss).length = ss.length := by
  induction ss with
  | nil => intro l; rfl
  | cons s t ih => intro l; simp only [chunksOf, List.length_cons, ih]

theorem groupSizes_length (n k : Nat) : (groupSizes n k).length = k := by
  simp [groupSizes]

theorem range_sum_ite (q r : Nat) :
    ∀ m, (((List.range m).map fun i => if i < r then q + 1 else q).sum) = q * m + min r m := by
  intro m
  induction m with
  | zero => simp
  | succ m ih =>
      rw [List.range_succ, List.map_append, List.sum_append]
      simp only [List.map_cons, List.map_nil, List.sum_cons, List.sum_nil]
      rw [ih]
      by_cases hm : m < r
      · rw [if_pos hm]
        have : q * (m + 1) = q * m + q := by ring
        omega
      · rw [if_neg hm]
        have : q * (m + 1) = q * m + q := by ring
        omega

theorem groupSizes_sum (n k : Nat) (hk : 0 < k) : (groupSizes n k).sum = n := by
  unfold groupSizes
  rw [range_sum_ite]
  have h1 : n % k < k := Nat.mod_lt _ hk
  rw [min_eq_left (le_of_lt h1), Nat.mul_comm]
  exact Nat.div_add_mod n k

theorem chunksOf_join (ss : List Nat) :
    ∀ l : List Nat, ss.sum = l.length → (chunksOf l ss).flatten = l := by
  induction ss with
  | nil =>
      intro l h
      simp only [List.sum_nil] at h
      have : l = [] := List.length_eq_zero.mp h.symm
      simp [chunksOf, this]
  | cons s t ih =>
      intro l h
      simp only [List.sum_cons] at h
      simp only [chunksOf, List.flatten]
      rw [ih (l.drop s) (by simp; omega)]
      exact List.take_append_drop s l

theorem chunksOf_map_length (ss : List Nat) :
    ∀ l : List Nat, ss.sum ≤ l.length → (chunksOf l ss).map List.length = ss := by
  induction ss with
  | nil => intro l _; rfl
  | cons s t ih =>
      intro l h
      simp only [List.sum_cons] at h
      simp only [chunksOf, List.map_cons]
      rw [List.length_take, ih (l.drop s) (by simp; omega)]
      congr 1
      omega

theorem groupSizes_mem (n k s : Nat) (h : s ∈ groupSizes n k) :
    s = n / k ∨ s = n / k + 1 := by
  unfold groupSizes at h
  obtain ⟨i, -, hs⟩ := List.mem_map.mp h
  by_cases hir : i < n % k
  · rw [if_pos hir] at hs; right; omega
  · rw [if_neg hir] at hs; left; omega

/-- Claim C3: for every node and every integer `k`, the `/` operator fails
with the range `ValueError` when `k ≤ 0`, and when `k > 0` returns the
node's own children split into exactly `k` contiguous groups whose
concatenation is the original children sequence and whose sizes are
`n / k` or `n / k + 1` (roughly equal).  `partition` itself is modelled
from the spec because the method is called but not defined in `src/`. -/
theorem c3_partition_truediv (σ : Store) (a : Nat) (k : Int) :
    (k ≤ 0 → truediv σ a k = .error (.valueError "parts must be > 0")) ∧
    (0 < k →
      truediv σ a k = .ok (partition (σ a).children k.toNat) ∧
      (partition (σ a).children k.toNat).length = k.toNat ∧
      (partition (σ a).children k.toNat).flatten = (σ a).children ∧
      ∀ g ∈ partition (σ a).children k.toNat,
        g.length = (σ a).children.length / k.toNat ∨
        g.length = (σ a).children.length / k.toNat + 1) := by
  constructor
  · intro hk
    simp [truediv, hk]
  · intro hk
    have hk0 : ¬ k ≤ 0 := by omega
    have hkn : 0 < k.toNat := by omega
    refine ⟨by simp [truediv, hk0], ?_, ?_, ?_⟩
    · unfold partition
      rw [chunksOf_length, groupSizes_length]
    · exact chunksOf_join _ _ (groupSizes_sum _ _ hkn)
    · intro g hg
      have hmap := chunksOf_map_length (groupSizes (σ a).children.length k.toNat)
        (σ a).children (le_of_eq (groupSizes_sum _ _ hkn))
      have : g.length ∈ groupSizes (σ a).children.length k.toNat := by
        rw [← hmap]
        exact List.mem_map_of_mem _ hg
      exact groupSizes_mem _ _ _ this

/-- Witness for C3: `children / (-1)` raises the range error and
`children / 2` splits the five children into two contiguous groups of sizes
3 and 2. -/
theorem c3_partition_truediv_witness :
    (truediv storeC3 0 (-1) = .error (.valueError "parts must be > 0")) ∧
    (truediv storeC3 0 2 = .ok (partition (storeC3 0).children (2 : Int).toNat) ∧
      (partition (storeC3 0).children (2 : Int).toNat).length = (2 : Int).toNat ∧
      (partition (storeC3 0).children (2 : Int).toNat).flatten = (storeC3 0).children ∧
      ∀ g ∈ partition (storeC3 0).children (2 : Int).toNat,
        g.length = (storeC3 0).children.length / (2 : Int).toNat ∨
        g.length = (storeC3 0).children.length / (2 : Int).toNat + 1) :=
  ⟨(c3_partition_truediv storeC3 0 (-1)).1 (by decide),
   (c3_partition_truediv storeC3 0 2).2 (by decide)⟩

theorem addWithPolicy_eq_apply (σ : Store) (a b : Nat)
    (h2 : (kadd σ a b).2 = none) :
    addWithPolicy σ a b = applyPolicy (kadd σ a b).1 a := by
  rcases hkk : kadd σ a b with ⟨s1, e⟩
  rw [hkk] at h2
  simp only at h2
  subst h2
  simp only [addWithPolicy, hkk]
  cases hrr : (s1 a).retention with
  | none => simp [applyPolicy, hrr]
  | some p => simp only [hrr]

theorem applyPolicy_children (σ : Store) (a : Nat) (p : KRetentionPolicy)
    (hp : (σ a).retention = some p)
    (hov : p.max_size < ((σ a).children.length : Int)) :
    ((applyPolicy σ a).1 a).children = (evictSplit p.prune_from
      (((σ a).children.length : Int) - p.max_size).toNat (σ a).children).2 := by
  rw [applyPolicy_overflow σ a p hp hov]
  simp

theorem applyPolicy_err (σ : Store) (a : Nat) (p : KRetentionPolicy)
    (hp : (σ a).retention = some p)
    (hov : p.max_size < ((σ a).children.length : Int)) :
    (applyPolicy σ a).2 = (match p.notify with
      | .RAISE => some (.valueError (retentionMsg (evictSplit p.prune_from
          (((σ a).children.length : Int) - p.max_size).toNat (σ a).children).1.length))
      | .CALL => none
      | .SUPPRESS => none) := by
  rw [applyPolicy_overflow σ a p hp hov]

theorem applyPolicy_other (σ : Store) (a : Nat) (p : KRetentionPolicy)
    (hp : (σ a).retention = some p)
    (hov : p.max_size < ((σ a).children.length : Int))
    (v : Nat) (hv : v ≠ a) :
    (applyPolicy σ a).1 v = σ v := by
  rw [applyPolicy_overflow σ a p hp hov]
  simp [hv]

theorem evictSplit_survivors_length (side : PruneFrom) (k : Nat) (l : List Nat) :
    (evictSplit side k l).2.length = l.length - k := by
  cases side <;> simp [evictSplit] <;> omega

theorem evictSplit_victims_length (side : PruneFrom) (k : Nat) (l : List Nat) :
    (evictSplit side k l).1.length = min k l.length := by
  cases side <;> simp [evictSplit] <;> omega

theorem evictSplit_survivors_ne (side : PruneFrom) (k : Nat) (l : List Nat)
    (hk : 0 < k) (hl : l ≠ []) : (evictSplit side k l).2 ≠ l := by
  intro he
  have hlen := congrArg List.length he
  rw [evictSplit_survivors_length] at hlen
  have hpos : 0 < l.length := List.length_pos.mpr hl
  omega

theorem evictSplit_victims_mem (side : PruneFrom) (k : Nat) (l : List Nat)
    (v : Nat) (hv : v ∈ (evictSplit side k l).1) : v ∈ l := by
  cases side
  · exact List.drop_subset _ _ hv
  · exact List.take_subset _ _ hv

theorem evictSplit_victims_not_survivor (side : PruneFrom) (k : Nat) (l : List Nat)
    (hnodup : l.Nodup) (v : Nat) (hv : v ∈ (evictSplit side k l).1) :
    v ∉ (evictSplit side k l).2 := by
  cases side
  · have h := hnodup
    rw [← List.take_append_drop (l.length - k) l] at h
    have hd := List.disjoint_of_nodup_append h
    simp only [evictSplit] at hv ⊢
    exact fun hs => hd hs hv
  · have h := hnodup
    rw [← List.take_append_drop k l] at h
    have hd := List.disjoint_of_nodup_append h
    simp only [evictSplit] at hv ⊢
    exact fun hs => hd hv hs

/-- Claim C8: for a container holding 5 children under a policy with
`max_size = 3`, applying the policy with the `FORWARD` selector keeps the
3 oldest (first-appended) children and evicts the trailing 2; with the
`BACKWARD` selector it keeps the 3 newest and evicts the leading 2; and on
an already-compliant container (overflow `≤ 0`) `apply` changes nothing. -/
theorem c8_retention_sides (σ : Store) (a : Nat) (p : KRetentionPolicy)
    (hp : (σ a).retention = some p) :
    (p.max_size = 3 → (σ a).children.length = 5 →
      (p.prune_from = .FORWARD →
        ((applyPolicy σ a).1 a).children = (σ a).children.take 3 ∧
        (evictSplit .FORWARD 2 (σ a).children).1 = (σ a).children.drop 3) ∧
      (p.prune_from = .BACKWARD →
        ((applyPolicy σ a).1 a).children = (σ a).children.drop 2 ∧
        (evictSplit .BACKWARD 2 (σ a).children).1 = (σ a).children.take 2)) ∧
    (((σ a).children.length : Int) ≤ p.max_size → applyPolicy σ a = (σ, none)) := by
  constructor
  · intro hmax hlen
    have hov : p.max_size < ((σ a).children.length : Int) := by
      rw [hmax, hlen]; norm_num
    have hchn := applyPolicy_children σ a p hp hov
    have hk2 : (((σ a).children.length : Int) - p.max_size).toNat = 2 := by
      rw [hlen, hmax]; rfl
    constructor
    · intro hf
      constructor
      · rw [hchn, hk2, hf]
        simp [evictSplit, hlen]
      · simp [evictSplit, hlen]
    · intro hb
      constructor
      · rw [hchn, hk2, hb]
        simp [evictSplit]
      · simp [evictSplit]
  · intro hle
    exact applyPolicy_noop σ a p hp hle

/-- Witness for C8 at three concrete stores: the front selector leaves the
first three of five children, the back selector the last three, and a
compliant container is untouched. -/
theorem c8_retention_sides_witness :
    (((applyPolicy storeC8f 0).1 0).children = (storeC8f 0).children.take 3 ∧
      (evictSplit .FORWARD 2 (storeC8f 0).children).1 = (storeC8f 0).children.drop 3) ∧
    (((applyPolicy storeC8b 0).1 0).children = (storeC8b 0).children.drop 2 ∧
      (evictSplit .BACKWARD 2 (storeC8b 0).children).1 = (storeC8b 0).children.take 2) ∧
    applyPolicy storeC8c 0 = (storeC8c, none) :=
  ⟨((c8_retention_sides storeC8f 0 ⟨3, .FORWARD, .DISCARD, .SUPPRESS, []⟩
      (by decide)).1 rfl (by decide)).1 rfl,
   ((c8_retention_sides storeC8b 0 ⟨3, .BACKWARD, .DISCARD, .SUPPRESS, []⟩
      (by decide)).1 rfl (by decide)).2 rfl,
   (c8_retention_sides storeC8c 0 ⟨3, .FORWARD, .DISCARD, .SUPPRESS, []⟩
      (by decide)).2 (by decide)⟩

/-- Claim C1 refuted: with an abort-mode policy (`max_size = 3`) on a branch
holding four leaves, inserting a fifth leaf raises the `ValueError`
reporting 2 victims, but the container's children are `[1, 2, 3]` — the
survivors — not the pre-eviction five: the insert is *not* rolled back. -/
theorem c1_abort_counterexample :
    (addWithPolicy storeC1 0 5).2 =
      some (.valueError "Retention policy: removed 2 objects") ∧
    ((addWithPolicy storeC1 0 5).1 0).children = [1, 2, 3] ∧
    ([1, 2, 3] : List Nat) ≠ [1, 2, 3, 4, 5] := by
  refine ⟨by decide, by decide, by decide⟩

/-- Claim C1 (amended): in abort notification mode an overflowing insert
raises a `ValueError` carrying the victim count, but the eviction has
already been performed when the error is raised: after the error the
container's children are the survivors of the eviction split, which differ
from the pre-eviction (post-insert) children. -/
theorem c1_abort_amended (σ : Store) (a b : Nat) (p : KRetentionPolicy)
    (hab : a ≠ b)
    (hmem : (σ b).kind ∈ allowed (σ a).kind)
    (hdup : hashMem σ (σ a).children b = false)
    (hp : (σ a).retention = some p)
    (hnot : p.notify = .RAISE)
    (hov : p.max_size < ((σ a).children.length : Int) + 1) :
    (addWithPolicy σ a b).2 = some (.valueError (retentionMsg
      (evictSplit p.prune_from (((σ a).children.length : Int) + 1 - p.max_size).toNat
        ((σ a).children ++ [b])).1.length)) ∧
    ((addWithPolicy σ a b).1 a).children =
      (evictSplit p.prune_from (((σ a).children.length : Int) + 1 - p.max_size).toNat
        ((σ a).children ++ [b])).2 ∧
    ((addWithPolicy σ a b).1 a).children ≠ (σ a).children ++ [b] := by
  obtain ⟨h2, ha, hb, -⟩ := kadd_success σ a b hab hmem hdup
  have hch : ((kadd σ a b).1 a).children = (σ a).children ++ [b] := by rw [ha]
  have hret : ((kadd σ a b).1 a).retention = some p := by rw [ha]; exact hp
  have hlen : (((kadd σ a b).1 a).children.length : Int)
      = ((σ a).children.length : Int) + 1 := by
    rw [hch]; simp
  have hov1 : p.max_size < (((kadd σ a b).1 a).children.length : Int) := by
    rw [hlen]; exact hov
  have haw := addWithPolicy_eq_apply σ a b h2
  have hchn := applyPolicy_children ((kadd σ a b).1) a p hret hov1
  have herr := applyPolicy_err ((kadd σ a b).1) a p hret hov1
  refine ⟨?_, ?_, ?_⟩
  · rw [haw, herr]
    simp only [hnot]
    rw [hlen, hch]
  · rw [haw, hchn, hlen, hch]
  · rw [haw, hchn, hlen, hch]
    exact evictSplit_survivors_ne _ _ _ (by omega) (by simp)

/-- Witness for the amended C1 at the concrete overflowing branch. -/
theorem c1_abort_amended_witness :
    (addWithPolicy storeC1 0 5).2 = some (.valueError (retentionMsg
      (evictSplit PruneFrom.FORWARD
        (((storeC1 0).children.length : Int) + 1 - 3).toNat
        ((storeC1 0).children ++ [5])).1.length)) ∧
    ((addWithPolicy storeC1 0 5).1 0).children =
      (evictSplit PruneFrom.FORWARD
        (((storeC1 0).children.length : Int) + 1 - 3).toNat
        ((storeC1 0).children ++ [5])).2 ∧
    ((addWithPolicy storeC1 0 5).1 0).children ≠ (storeC1 0).children ++ [5] :=
  c1_abort_amended storeC1 0 5 ⟨3, .FORWARD, .DISCARD, .RAISE, []⟩
    (by decide) (by decide) (by decide) (by decide) (by decide) (by decide)

/-- Claim C2 refuted by the code: `Matrix.__add__` with a policy attached
appends the layer and then raises `AttributeError` (it passes the children
*list* to `apply`, which reads `container.metadata`), so the policy —
`max_size = 0`, which would have evicted everything — never runs; plain
`net + node` (the only composition operator `Net` has) never consults the
policy at all; and `Net.add_node` raises the same `AttributeError`. -/
theorem c2_retention_trigger_bug :
    (matrixAdd storeC2m 0 1).2 =
      some (.attributeError "\u0027list\u0027 object has no attribute \u0027metadata\u0027") ∧
    ((matrixAdd storeC2m 0 1).1 0).children = [1] ∧
    ((matrixAdd storeC2m 0 1).1 0).retention =
      some ⟨0, .FORWARD, .DISCARD, .SUPPRESS, []⟩ ∧
    (kadd storeC2n 0 1).2 = none ∧
    ((kadd storeC2n 0 1).1 0).children = [1] ∧
    ((kadd storeC2n 0 1).1 0).retention =
      some ⟨0, .FORWARD, .DISCARD, .SUPPRESS, []⟩ ∧
    (addNode storeC2n 0 2 "ND2" "nd2").2 =
      some (.attributeError "\u0027list\u0027 object has no attribute \u0027metadata\u0027") := by
  refine ⟨by decide, by decide, by decide, by decide, by decide, by decide, by decide⟩

/-- Claim C5 refuted: starting from a branch with an attached silent policy
(`max_size = 1`) and composing two leaves through the public operator, the
second insert's eviction leaves the victim with `parent == container` while
it is no longer in the container's children — the biconditional
parent/membership invariant is not preserved by retention application. -/
theorem c5_invariant_counterexample :
    (addWithPolicy (addWithPolicy storeC5 0 1).1 0 2).2 = none ∧
    ((addWithPolicy (addWithPolicy storeC5 0 1).1 0 2).1 2).parent = some 0 ∧
    2 ∉ ((addWithPolicy (addWithPolicy storeC5 0 1).1 0 2).1 0).children := by
  refine ⟨by decide, by decide, by decide⟩

/-- Claim C5 (amended): composition and decomposition manage the parent
back-reference and the membership together, but retention-policy
application does not: on any container whose children all point back to it,
an overflow eviction removes a nonempty set of victims from the children
while leaving every victim's parent reference equal to the container, so
`child.parent == container iff child in container.children` is not an
invariant of policy application. -/
theorem c5_invariant_amended (σ : Store) (a : Nat) (p : KRetentionPolicy)
    (hp : (σ a).retention = some p)
    (hov : p.max_size < ((σ a).children.length : Int))
    (hnodup : (σ a).children.Nodup)
    (hpar : ∀ c ∈ (σ a).children, (σ c).parent = some a)
    (hself : a ∉ (σ a).children)
    (hne : (σ a).children ≠ []) :
    (evictSplit p.prune_from (((σ a).children.length : Int) - p.max_size).toNat
      (σ a).children).1 ≠ [] ∧
    ∀ v ∈ (evictSplit p.prune_from (((σ a).children.length : Int) - p.max_size).toNat
      (σ a).children).1,
      ((applyPolicy σ a).1 v).parent = some a ∧
      v ∉ ((applyPolicy σ a).1 a).children := by
  have hchn := applyPolicy_children σ a p hp hov
  constructor
  · intro he
    have hlen := congrArg List.length he
    rw [evictSplit_victims_length] at hlen
    have hpos : 0 < (σ a).children.length := List.length_pos.mpr hne
    simp only [List.length_nil] at hlen
    omega
  · intro v hv
    have hvmem : v ∈ (σ a).children := evictSplit_victims_mem _ _ _ v hv
    have hva : v ≠ a := fun h => hself (h ▸ hvmem)
    refine ⟨?_, ?_⟩
    · rw [applyPolicy_other σ a p hp hov v hva]
      exact hpar v hvmem
    · rw [hchn]
      exact evictSplit_victims_not_survivor _ _ _ hnodup v hv

/-- Witness for the amended C5 at a branch over capacity. -/
theorem c5_invariant_amended_witness :
    (evictSplit PruneFrom.FORWARD
      (((storeC5w 0).children.length : Int) - 1).toNat (storeC5w 0).children).1 ≠ [] ∧
    ∀ v ∈ (evictSplit PruneFrom.FORWARD
      (((storeC5w 0).children.length : Int) - 1).toNat (storeC5w 0).children).1,
      ((applyPolicy storeC5w 0).1 v).parent = some 0 ∧
      v ∉ ((applyPolicy storeC5w 0).1 0).children :=
  c5_invariant_amended storeC5w 0 ⟨1, .FORWARD, .DISCARD, .SUPPRESS, []⟩
    (by decide) (by decide) (by decide) (by decide) (by decide) (by decide)

/-- Claim C7 refuted: reparenting a `Layer` under a `Matrix` through the
composition operator changes its attachment point but leaves its structural
hash identical — `Layer.hash` (like `Net.hash`) does not include the parent
identifier. -/
theorem c7_layer_reparent_counterexample :
    ((kadd storeC7 0 1).1 1).parent = some 0 ∧
    (storeC7 1).parent = none ∧
    structHash (kadd storeC7 0 1).1 ((kadd storeC7 0 1).1 1) =
      structHash storeC7 (storeC7 1) := by
  refine ⟨by decide, by decide, by decide⟩

/-- Claim C7 (amended): changing a node's attachment point never changes its
semantic hash; it changes the structural hash for `Leaf`, `Branch`, `Tree`
and `Node` (whose hashes embed the serialized parent identifier) whenever
that serialization differs, but for `Net`, `Layer` and `Matrix` the
structural hash ignores the parent entirely and is unchanged by any
reparenting or detachment. -/
theorem c7_hash_attachment_amended :
    (∀ (σ : Store) (o : Obj) (q : Option Nat),
      (o.kind = .leaf ∨ o.kind = .branch ∨ o.kind = .tree ∨ o.kind = .node) →
      pyOptRepr (parentId σ { o with parent := q }) ≠ pyOptRepr (parentId σ o) →
      structHash σ { o with parent := q } ≠ structHash σ o) ∧
    (∀ (σ : Store) (o : Obj) (q : Option Nat),
      semHash σ { o with parent := q } = semHash σ o) ∧
    (∀ (σ : Store) (o : Obj) (q : Option Nat),
      (o.kind = .net ∨ o.kind = .layer ∨ o.kind = .matrix) →
      structHash σ { o with parent := q } = structHash σ o) := by
  refine ⟨?_, ?_, ?_⟩
  · rintro σ o q (hk | hk | hk | hk) hne
    · simp only [structHash, hk, sha1]
      exact string_append_left_ne hne
    · simp only [structHash, hk, sha1]
      show o.data ++ "|" ++ pyListRepr (childIds σ o) ++ "|"
            ++ pyOptRepr (parentId σ { o with parent := q })
          ≠ o.data ++ "|" ++ pyListRepr (childIds σ o) ++ "|"
            ++ pyOptRepr (parentId σ o)
      exact string_append_left_ne hne
    · simp only [structHash, hk, sha1]
      show o.data ++ "|" ++ pyListRepr (childIds σ o) ++ "|"
            ++ pyOptRepr (parentId σ { o with parent := q })
          ≠ o.data ++ "|" ++ pyListRepr (childIds σ o) ++ "|"
            ++ pyOptRepr (parentId σ o)
      exact string_append_left_ne hne
    · simp only [structHash, hk, sha1]
      show o.data ++ "|" ++ pyListRepr (childIds σ o) ++ "|"
            ++ pyOptRepr (parentId σ { o with parent := q })
          ≠ o.data ++ "|" ++ pyListRepr (childIds σ o) ++ "|"
            ++ pyOptRepr (parentId σ o)
      exact string_append_left_ne hne
  · intro σ o q
    cases hk : o.kind <;> simp only [semHash, structHash, hk] <;> rfl
  · rintro σ o q (hk | hk | hk) <;> simp only [structHash, hk] <;> rfl

/-- Witness for the amended C7: attaching a detached leaf under a parent
with id `P` changes its structural hash (serialized parent goes from `None`
to `P`), its semantic hash is unchanged, and a layer's structural hash is
unchanged under the same reattachment. -/
theorem c7_hash_attachment_amended_witness :
    structHash storeC7w { leafC7w with parent := some 0 } ≠ structHash storeC7w leafC7w ∧
    semHash storeC7w { leafC7w with parent := some 0 } = semHash storeC7w leafC7w ∧
    structHash storeC7w { storeC7 1 with parent := some 0 } = structHash storeC7w (storeC7 1) :=
  ⟨c7_hash_attachment_amended.1 storeC7w leafC7w (some 0) (Or.inl rfl) (by decide),
   c7_hash_attachment_amended.2.1 storeC7w leafC7w (some 0),
   c7_hash_attachment_amended.2.2 storeC7w (storeC7 1) (some 0) (Or.inr (Or.inl rfl))⟩

/-- Field bookkeeping for a successful removal (`__sub__` with
`other.parent is self` and a matching child found): the container's children
lose one element, its parent is untouched, and every `id`, `kind`, `data`
and `name` in the store is untouched. -/
theorem ksub_success_fields (σ : Store) (a b : Nat) (hab : a ≠ b)
    (hpar : (σ b).parent = some a)
    (h2 : (ksub σ a b).2 = none) :
    ∃ l1 e l2, (σ a).children = l1 ++ e :: l2 ∧
      ((ksub σ a b).1 a).children = l1 ++ l2 ∧
      ((ksub σ a b).1 a).parent = (σ a).parent ∧
      (∀ c, ((ksub σ a b).1 c).id = (σ c).id) ∧
      (∀ c, ((ksub σ a b).1 c).kind = (σ c).kind) ∧
      (∀ c, ((ksub σ a b).1 c).data = (σ c).data) ∧
      (∀ c, ((ksub σ a b).1 c).name = (σ c).name) := by
  have hs1a : (setObj σ b { σ b with parent := none }) a = σ a :=
    setObj_other _ _ _ _ hab
  cases hrem : removeFirstEq (setObj σ b { σ b with parent := none })
      ((setObj σ b { σ b with parent := none }) a).children b with
  | none =>
      exfalso
      simp [ksub, hpar, hrem] at h2
  | some l =>
      obtain ⟨l1, e, l2, hdec, hl⟩ := removeFirstEq_decomp _ b _ _ hrem
      rw [hs1a] at hdec
      have hks : ksub σ a b = (setObj (setObj σ b { σ b with parent := none }) a
          { (setObj σ b { σ b with parent := none }) a with children := l }, none) := by
        simp [ksub, hpar, hrem]
      have key : ∀ c, ((ksub σ a b).1 c).id = (σ c).id ∧
          ((ksub σ a b).1 c).kind = (σ c).kind ∧
          ((ksub σ a b).1 c).data = (σ c).data ∧
          ((ksub σ a b).1 c).name = (σ c).name := by
        intro c
        rw [hks]
        by_cases hca : c = a
        · subst hca
          simp [setObj, hab]
        · by_cases hcb : c = b
          · subst hcb
            simp [setObj, hca]
          · simp [setObj, hca, hcb]
      refine ⟨l1, e, l2, hdec, ?_, ?_, fun c => (key c).1, fun c => (key c).2.1,
        fun c => (key c).2.2.1, fun c => (key c).2.2.2⟩
      · rw [hks]
        simp only [setObj_same]
        exact hl
      · rw [hks]
        simp [setObj, hab]

theorem semHash_net (σ : Store) (o : Obj) (h : o.kind = .net) :
    semHash σ o = structHash σ o := by
  simp [semHash, h]

/-- Claim C6 refuted: adding a node to a `Net` changes the net's *semantic*
hash — `Net.shash` is defined as `Net.hash`, which serializes the children
ids — contradicting "never changes its semantic hash". -/
theorem c6_net_semhash_counterexample :
    (kadd storeC6 0 1).2 = none ∧
    semHash (kadd storeC6 0 1).1 ((kadd storeC6 0 1).1 0) ≠
      semHash storeC6 (storeC6 0) := by
  refine ⟨by decide, by decide⟩

/-- Claim C6 (amended): an insert through the composition operator, or a
removal through the decomposition operator, always changes the container's
structural hash; the semantic hash is unchanged for `Branch`, `Tree`,
`Node`, `Layer` and `Matrix` containers, but for `Net` the semantic hash is
defined as the structural hash and therefore changes as well. -/
theorem c6_hash_amended :
    (∀ (σ : Store) (a b : Nat), a ≠ b →
      (σ b).kind ∈ allowed (σ a).kind →
      hashMem σ (σ a).children b = false →
      (σ a).kind ≠ .leaf → (σ a).kind ≠ .net →
      structHash (kadd σ a b).1 ((kadd σ a b).1 a) ≠ structHash σ (σ a) ∧
      semHash (kadd σ a b).1 ((kadd σ a b).1 a) = semHash σ (σ a)) ∧
    (∀ (σ : Store) (a b : Nat), a ≠ b →
      (σ b).kind ∈ allowed (σ a).kind →
      hashMem σ (σ a).children b = false →
      (σ a).kind = .net →
      structHash (kadd σ a b).1 ((kadd σ a b).1 a) ≠ structHash σ (σ a) ∧
      semHash (kadd σ a b).1 ((kadd σ a b).1 a) ≠ semHash σ (σ a)) ∧
    (∀ (σ : Store) (a b : Nat), a ≠ b →
      (σ b).parent = some a →
      (ksub σ a b).2 = none →
      (σ a).kind ≠ .leaf →
      ((σ a).kind = .matrix → ∀ c ∈ (σ a).children, (σ c).kind = .layer) →
      structHash (ksub σ a b).1 ((ksub σ a b).1 a) ≠ structHash σ (σ a) ∧
      ((σ a).kind ≠ .net →
        semHash (ksub σ a b).1 ((ksub σ a b).1 a) = semHash σ (σ a)) ∧
      ((σ a).kind = .net →
        semHash (ksub σ a b).1 ((ksub σ a b).1 a) ≠ semHash σ (σ a))) := by
  have addStruct : ∀ (σ : Store) (a b : Nat), a ≠ b →
      (σ b).kind ∈ allowed (σ a).kind →
      hashMem σ (σ a).children b = false →
      (σ a).kind ≠ .leaf →
      structHash (kadd σ a b).1 ((kadd σ a b).1 a) ≠ structHash σ (σ a) := by
    intro σ a b hab hmem hdup hleaf
    obtain ⟨hch, hparf, hid, hkind, hdata, hname⟩ := kadd_fields σ a b hab hmem hdup
    have hcid := kadd_childIds σ a b hab hmem hdup
    have hpid := kadd_parentId σ a b hab hmem hdup
    apply structHash_ne_children σ (kadd σ a b).1 (σ a) ((kadd σ a b).1 a)
      (hkind a) (hdata a) (hname a) (congrArg pyOptRepr hpid)
    · intro hmty
      have hlay : (σ b).kind = .layer := by
        rw [hmty] at hmem
        simpa [allowed] using hmem
      rw [kadd_layerIds σ a b hab hmem hdup hlay]
      exact pyListRepr_append_len_ne _ _
    · intro hnm
      rw [hcid]
      exact pyListRepr_append_len_ne _ _
    · exact hleaf
  refine ⟨?_, ?_, ?_⟩
  · intro σ a b hab hmem hdup hleaf hnet
    obtain ⟨hch, hparf, hid, hkind, hdata, hname⟩ := kadd_fields σ a b hab hmem hdup
    exact ⟨addStruct σ a b hab hmem hdup hleaf,
      semHash_eq_fields σ (kadd σ a b).1 (σ a) ((kadd σ a b).1 a)
        (hkind a) (hdata a) (hname a) (hid a) hnet⟩
  · intro σ a b hab hmem hdup hknet
    obtain ⟨hch, hparf, hid, hkind, hdata, hname⟩ := kadd_fields σ a b hab hmem hdup
    have hleaf : (σ a).kind ≠ .leaf := by rw [hknet]; intro h; cases h
    have hne := addStruct σ a b hab hmem hdup hleaf
    refine ⟨hne, ?_⟩
    have hknet2 : ((kadd σ a b).1 a).kind = .net := by rw [hkind a, hknet]
    rw [semHash_net _ _ hknet2, semHash_net _ _ hknet]
    exact hne
  · intro σ a b hab hpar h2 hleaf hmats
    obtain ⟨l1, e, l2, hdec, hch, hparf, hid, hkind, hdata, hname⟩ :=
      ksub_success_fields σ a b hab hpar h2
    have hcid : childIds (ksub σ a b).1 ((ksub σ a b).1 a)
        = l1.map (fun c => (σ c).id) ++ l2.map (fun c => (σ c).id) := by
      simp only [childIds, hch, List.map_append]
      congr 1 <;> exact List.map_congr_left fun c _ => hid c
    have hcid0 : childIds σ (σ a)
        = l1.map (fun c => (σ c).id) ++ (σ e).id :: l2.map (fun c => (σ c).id) := by
      simp only [childIds, hdec, List.map_append, List.map_cons]
    have hpid : pyOptRepr (parentId (ksub σ a b).1 ((ksub σ a b).1 a))
        = pyOptRepr (parentId σ (σ a)) := by
      have h : parentId (ksub σ a b).1 ((ksub σ a b).1 a) = parentId σ (σ a) := by
        simp only [parentId, hparf]
        cases (σ a).parent with
        | none => rfl
        | some p => simp [hid p]
      rw [h]
    have hstruct : structHash (ksub σ a b).1 ((ksub σ a b).1 a) ≠ structHash σ (σ a) := by
      apply structHash_ne_children σ (ksub σ a b).1 (σ a) ((ksub σ a b).1 a)
        (hkind a) (hdata a) (hname a) hpid
      · intro hmty
        have hall := hmats hmty
        have hfil1 : layerIds (ksub σ a b).1 ((ksub σ a b).1 a)
            = (l1 ++ l2).map (fun c => (σ c).id) := by
          simp only [layerIds, hch]
          rw [List.filter_congr (fun c _ => by rw [hkind c])]
          rw [List.filter_eq_self.mpr (fun c hc => by
            refine decide_eq_true (hall c ?_)
            rw [hdec]
            rcases List.mem_append.mp hc with h1 | h1
            · exact List.mem_append.mpr (Or.inl h1)
            · exact List.mem_append.mpr (Or.inr (List.mem_cons_of_mem _ h1)))]
          exact List.map_congr_left fun c _ => hid c
        have hfil0 : layerIds σ (σ a)
            = (l1 ++ e :: l2).map (fun c => (σ c).id) := by
          simp only [layerIds, hdec]
          rw [List.filter_eq_self.mpr (fun c hc => by
            refine decide_eq_true (hall c ?_)
            rw [hdec]
            exact hc)]
        rw [hfil1, hfil0]
        simp only [List.map_append, List.map_cons]
        exact pyListRepr_remove_len_ne _ _ _
      · intro hnm
        rw [hcid, hcid0]
        exact pyListRepr_remove_len_ne _ _ _
      · exact hleaf
    refine ⟨hstruct, ?_, ?_⟩
    · intro hnet
      exact semHash_eq_fields σ (ksub σ a b).1 (σ a) ((ksub σ a b).1 a)
        (hkind a) (hdata a) (hname a) (hid a) hnet
    · intro hnet
      have hknet2 : ((ksub σ a b).1 a).kind = .net := by rw [hkind a, hnet]
      rw [semHash_net _ _ hknet2, semHash_net _ _ hnet]
      exact hstruct

/-- Witness for the amended C6: a leaf added to a branch changes the
branch's structural hash and not its semantic hash; a node added to a net
changes both of the net's hashes; removing the attached leaf from a branch
changes the branch's structural hash and not its semantic hash. -/
theorem c6_hash_amended_witness :
    (structHash (kadd storeC6b 0 1).1 ((kadd storeC6b 0 1).1 0) ≠
        structHash storeC6b (storeC6b 0) ∧
      semHash (kadd storeC6b 0 1).1 ((kadd storeC6b 0 1).1 0) =
        semHash storeC6b (storeC6b 0)) ∧
    (structHash (kadd storeC6 0 1).1 ((kadd storeC6 0 1).1 0) ≠
        structHash storeC6 (storeC6 0) ∧
      semHash (kadd storeC6 0 1).1 ((kadd storeC6 0 1).1 0) ≠
        semHash storeC6 (storeC6 0)) ∧
    (structHash (ksub storeC6r 0 1).1 ((ksub storeC6r 0 1).1 0) ≠
        structHash storeC6r (storeC6r 0) ∧
      ((storeC6r 0).kind ≠ .net →
        semHash (ksub storeC6r 0 1).1 ((ksub storeC6r 0 1).1 0) =
          semHash storeC6r (storeC6r 0)) ∧
      ((storeC6r 0).kind = .net →
        semHash (ksub storeC6r 0 1).1 ((ksub storeC6r 0 1).1 0) ≠
          semHash storeC6r (storeC6r 0))) :=
  ⟨c6_hash_amended.1 storeC6b 0 1 (by decide) (by decide) (by decide)
      (by decide) (by decide),
   c6_hash_amended.2.1 storeC6 0 1 (by decide) (by decide) (by decide) (by decide),
   c6_hash_amended.2.2 storeC6r 0 1 (by decide) (by decide) (by decide)
      (by decide) (by decide)⟩

theorem traverseLoop_nodup {α : Type} [DecidableEq α] [Fintype α] (t : KTraverser α) :
    ∀ (q : List (α × List α)) (v : Finset α),
      ((traverseLoop t q v).map Prod.fst).Nodup ∧
      ∀ x ∈ (traverseLoop t q v).map Prod.fst, x ∉ v := by
  intro q v
  induction q, v using traverseLoop.induct t with
  | case1 v => simp [traverseLoop]
  | case2 node path queue visited h ih =>
      rw [traverseLoop]
      simp only [dif_pos h]
      exact ih
  | case3 node path queue visited h ih =>
      rw [traverseLoop]
      simp only [dif_neg h, List.map_cons, List.nodup_cons]
      obtain ⟨ih1, ih2⟩ := ih
      refine ⟨⟨?_, ih1⟩, ?_⟩
      · intro hmem
        exact ih2 _ hmem (Finset.mem_insert_self _ _)
      · intro x hx
        rcases List.mem_cons.mp hx with hx | hx
        · subst hx; exact h
        · intro hxv
          exact ih2 x hx (Finset.mem_insert_of_mem hxv)

theorem traverseLoop_stays {α : Type} [DecidableEq α] [Fintype α] (t : KTraverser α) :
    ∀ (q : List (α × List α)) (v : Finset α) (x : α),
      x ∈ q.map Prod.fst → x ∈ (traverseLoop t q v).map Prod.fst ∨ x ∈ v := by
  intro q v
  induction q, v using traverseLoop.induct t with
  | case1 v => intro x hx; simp at hx
  | case2 node path queue visited h ih =>
      intro x hx
      rw [traverseLoop]
      simp only [dif_pos h]
      rw [List.map_cons] at hx
      rcases List.mem_cons.mp hx with hx1 | hx1
      · right; rw [hx1]; exact h
      · exact ih x hx1
  | case3 node path queue visited h ih =>
      intro x hx
      rw [traverseLoop]
      simp only [dif_neg h, List.map_cons]
      rw [List.map_cons] at hx
      rcases List.mem_cons.mp hx with hx1 | hx1
      · left; rw [hx1]; exact List.mem_cons_self _ _
      · have hx2 : x ∈ (queue ++ (neighbors t node).map fun b => (b, path ++ [node])).map Prod.fst := by
          rw [List.map_append]
          exact List.mem_append_left _ hx1
        rcases ih x hx2 with h1 | h1
        · left; exact List.mem_cons_of_mem _ h1
        · rcases Finset.mem_insert.mp h1 with h2 | h2
          · left; rw [h2]; exact List.mem_cons_self _ _
          · right; exact h2

theorem traverseLoop_closed {α : Type} [DecidableEq α] [Fintype α] (t : KTraverser α) :
    ∀ (q : List (α × List α)) (v : Finset α),
      (∀ a ∈ v, ∀ b ∈ neighbors t a, b ∈ v ∨ b ∈ q.map Prod.fst) →
      ∀ x ∈ (traverseLoop t q v).map Prod.fst, ∀ y ∈ neighbors t x,
        y ∈ (traverseLoop t q v).map Prod.fst ∨ y ∈ v := by
  intro q v
  induction q, v using traverseLoop.induct t with
  | case1 v =>
      intro hcl x hx
      rw [traverseLoop] at hx
      simp at hx
  | case2 node path queue visited h ih =>
      intro hcl x hx y hy
      rw [traverseLoop] at hx ⊢
      simp only [dif_pos h] at hx ⊢
      refine ih ?_ x hx y hy
      intro a ha b hb
      rcases hcl a ha b hb with h1 | h1
      · left; exact h1
      · rw [List.map_cons] at h1
        rcases List.mem_cons.mp h1 with h2 | h2
        · left; rw [h2]; exact h
        · right; exact h2
  | case3 node path queue visited h ih =>
      intro hcl x hx y hy
      rw [traverseLoop] at hx ⊢
      simp only [dif_neg h, List.map_cons] at hx ⊢
      have hcl2 : ∀ a ∈ insert node visited, ∀ b ∈ neighbors t a,
          b ∈ insert node visited ∨
          b ∈ (queue ++ (neighbors t node).map fun b => (b, path ++ [node])).map Prod.fst := by
        intro a ha b hb
        rcases Finset.mem_insert.mp ha with h1 | h1
        · subst h1
          right
          rw [List.map_append]
          apply List.mem_append_right
          simpa [List.map_map, Function.comp] using hb
        · rcases hcl a h1 b hb with h2 | h2
          · left; exact Finset.mem_insert_of_mem h2
          · rw [List.map_cons] at h2
            rcases List.mem_cons.mp h2 with h3 | h3
            · left; rw [h3]; exact Finset.mem_insert_self _ _
            · right; rw [List.map_append]; exact List.mem_append_left _ h3
      rcases List.mem_cons.mp hx with hx1 | hx1
      · subst hx1
        have hyq : y ∈ (queue ++ (neighbors t x).map fun b => (b, path ++ [x])).map Prod.fst := by
          rw [List.map_append]
          apply List.mem_append_right
          simpa [List.map_map, Function.comp] using hy
        rcases traverseLoop_stays t _ _ y hyq with h1 | h1
        · left; exact List.mem_cons_of_mem _ h1
        · rcases Finset.mem_insert.mp h1 with h2 | h2
          · left; rw [h2]; exact List.mem_cons_self _ _
          · right; exact h2
      · rcases ih hcl2 x hx1 y hy with h1 | h1
        · left; exact List.mem_cons_of_mem _ h1
        · rcases Finset.mem_insert.mp h1 with h2 | h2
          · left; rw [h2]; exact List.mem_cons_self _ _
          · right; exact h2

theorem traverseLoop_sound {α : Type} [DecidableEq α] [Fintype α] (t : KTraverser α)
    (R : α → Prop) (hR : ∀ x, R x → ∀ y ∈ neighbors t x, R y) :
    ∀ (q : List (α × List α)) (v : Finset α),
      (∀ x ∈ q.map Prod.fst, R x) →
      ∀ x ∈ (traverseLoop t q v).map Prod.fst, R x := by
  intro q v
  induction q, v using traverseLoop.induct t with
  | case1 v =>
      intro hq x hx
      rw [traverseLoop] at hx
      simp at hx
  | case2 node path queue visited h ih =>
      intro hq x hx
      rw [traverseLoop] at hx
      simp only [dif_pos h] at hx
      refine ih ?_ x hx
      intro z hz
      exact hq z (by rw [List.map_cons]; exact List.mem_cons_of_mem _ hz)
  | case3 node path queue visited h ih =>
      intro hq x hx
      rw [traverseLoop] at hx
      simp only [dif_neg h, List.map_cons] at hx
      have hnode : R node := hq node (by simp)
      have hq2 : ∀ z ∈ (queue ++ (neighbors t node).map fun b => (b, path ++ [node])).map Prod.fst, R z := by
        intro z hz
        rw [List.map_append] at hz
        rcases List.mem_append.mp hz with h1 | h1
        · exact hq z (by rw [List.map_cons]; exact List.mem_cons_of_mem _ h1)
        · have h2 : z ∈ neighbors t node := by
            simpa [List.map_map, Function.comp] using h1
          exact hR node hnode z h2
      rcases List.mem_cons.mp hx with h1 | h1
      · rw [h1]; exact hnode
      · exact ih hq2 x h1

/-- Claim C9: for every finite node type (node values stand for Python
object identities, which is what the visited set stores — `id(node)` — so
the check is identity-keyed by construction), the traverser is a total
function (it terminates on every input by well-founded recursion), yields
each node at most once (`Nodup`), and yields exactly the nodes reachable
from the start under the configured resolvers, processing a strict FIFO
queue; in particular on the spec's 2-node cycle A -> B -> A it yields
exactly A then B and stops. -/
theorem c9_traverser_bfs :
    (∀ (α : Type) [DecidableEq α] [Fintype α] (t : KTraverser α) (start : α),
      ((traverse t start).map Prod.fst).Nodup ∧
      ∀ x, x ∈ (traverse t start).map Prod.fst ↔ reachable t start x) ∧
    (traverse cycle2 0).map Prod.fst = [0, 1] := by
  constructor
  · intro α _ _ t start
    refine ⟨(traverseLoop_nodup t [(start, [])] ∅).1, ?_⟩
    intro x
    constructor
    · intro hx
      refine traverseLoop_sound t (reachable t start) ?_ [(start, [])] ∅ ?_ x hx
      · intro z hz y hy
        exact Relation.ReflTransGen.tail hz hy
      · intro z hz
        simp at hz
        rw [hz]
        exact Relation.ReflTransGen.refl
    · intro hx
      induction hx with
      | refl =>
          rcases traverseLoop_stays t [(start, [])] ∅ start (by simp) with h1 | h1
          · exact h1
          · simp at h1
      | tail hz hy ih =>
          rcases traverseLoop_closed t [(start, [])] ∅ (by simp) _ ih _ hy with h1 | h1
          · exact h1
          · simp at h1
  · simp [traverse, traverseLoop, neighbors, cycle2]

end Knvectis
